import Mathlib

/-!
Verification development for the merge-mining AuxPow fragment of the xaya
full node (files `src/auxpow.h` and `src/consensus/params.h`).

Bytes are modelled as natural numbers (kept below 256 by construction where
it matters), byte streams as `List Nat`, 256-bit hashes as natural numbers
below `2 ^ 256`, and C++ signed 32-bit integers as `Int` with explicit
range side conditions.  Decoders consume a prefix of the stream and return
the decoded value together with the unconsumed tail, so that codecs compose
by threading the tail.

The implementation file `auxpow.cpp` is not part of the provided material;
the definitions of the validation and construction algorithms below are
therefore modelled from the specification document, as marked in their doc
comments.  Everything declared in the headers themselves (field layout,
serialization order, constructors, the fork table) is translated from the
headers directly.

The external hash primitives (the chain's double-SHA256 for transactions,
headers and Merkle combination) are passed as parameters: every statement
about the algorithms holds for an arbitrary choice of these functions.
-/

namespace Xaya

/-! ## Little-endian byte encodings -/

/-- Serialize `n` as `w` little-endian bytes (each `< 256`), truncating to
`n % 256 ^ w` as fixed-width integer writes do. -/
def serLE : Nat → Nat → List Nat
  | 0, _ => []
  | w + 1, n => n % 256 :: serLE w (n / 256)

/-- Read `w` little-endian bytes off the front of the stream, returning the
decoded value and the unconsumed tail; `none` if fewer than `w` bytes
remain. -/
def deLE : Nat → List Nat → Option (Nat × List Nat)
  | 0, bs => some (0, bs)
  | _ + 1, [] => none
  | w + 1, b :: bs => (deLE w bs).map (fun p => (b + 256 * p.1, p.2))

/-! ## Length prefixes (Bitcoin CompactSize) -/

/-- Serialize a length prefix in the chain-standard CompactSize format:
one byte below 253, otherwise a marker byte followed by a 2-, 4- or 8-byte
little-endian value. -/
def serCompact (n : Nat) : List Nat :=
  if n < 253 then [n]
  else if n < 2 ^ 16 then 253 :: serLE 2 n
  else if n < 2 ^ 32 then 254 :: serLE 4 n
  else 255 :: serLE 8 n

/-- Read a CompactSize length prefix off the front of the stream. -/
def deCompact : List Nat → Option (Nat × List Nat)
  | [] => none
  | b :: bs =>
      if b < 253 then some (b, bs)
      else if b = 253 then deLE 2 bs
      else if b = 254 then deLE 4 bs
      else deLE 8 bs

/-! ## Signed 32-bit integers -/

/-- Serialize a signed 32-bit integer as 4 little-endian bytes of its
two's-complement representation. -/
def serInt32 (i : Int) : List Nat := serLE 4 (i % (2 ^ 32)).toNat

/-- Read a signed 32-bit integer (two's complement, little endian) off the
front of the stream. -/
def deInt32 (bs : List Nat) : Option (Int × List Nat) :=
  (deLE 4 bs).map
    (fun p => (if p.1 < 2 ^ 31 then (p.1 : Int) else (p.1 : Int) - 2 ^ 32, p.2))

/-! ## Raw byte runs and hash sequences -/

/-- Read exactly `k` raw bytes off the front of the stream. -/
def readBytes : Nat → List Nat → Option (List Nat × List Nat)
  | 0, bs => some ([], bs)
  | _ + 1, [] => none
  | k + 1, b :: bs => (readBytes k bs).map (fun p => (b :: p.1, p.2))

/-- Serialize a sequence of 256-bit hashes as a CompactSize count followed by
32 little-endian bytes per hash. -/
def serHashVec (v : List Nat) : List Nat :=
  serCompact v.length ++ (v.map (serLE 32)).flatten

/-- Read `k` hashes of 32 bytes each off the front of the stream. -/
def deHashes : Nat → List Nat → Option (List Nat × List Nat)
  | 0, bs => some ([], bs)
  | k + 1, bs =>
      (deLE 32 bs).bind (fun p => (deHashes k p.2).map (fun q => (p.1 :: q.1, q.2)))

/-- Read a length-prefixed sequence of 256-bit hashes off the front of the
stream. -/
def deHashVec (bs : List Nat) : Option (List Nat × List Nat) :=
  (deCompact bs).bind (fun p => deHashes p.1 p.2)

/-! ## Data model (from `src/auxpow.h` and `src/consensus/params.h`) -/

/-- Modelled from the spec: the transaction type (`CTransaction`, defined in
`primitives/transaction.h`, not part of the provided material) is opaque to
this core except for its coinbase input script, which carries the
merge-mining commitment.  We keep exactly that script as the transaction's
payload. -/
structure CTransaction where
  scriptSig : List Nat
  deriving DecidableEq, Repr

/-- Modelled from the spec: the chain-standard transaction encoding is an
injective, self-delimiting byte encoding; we model it as the transaction's
payload bytes behind a CompactSize length prefix. -/
def serTx (t : CTransaction) : List Nat :=
  serCompact t.scriptSig.length ++ t.scriptSig

/-- Decoder for the modelled transaction encoding. -/
def deTx (bs : List Nat) : Option (CTransaction × List Nat) :=
  (deCompact bs).bind
    (fun p => (readBytes p.1 p.2).map (fun q => (CTransaction.mk q.1, q.2)))

/-- The fields of `CBaseMerkleTx` (`src/auxpow.h`, lines 47–95): the parent
chain's coinbase transaction, the hash of the block claimed to contain it,
the Merkle branch, and the path index. -/
structure CBaseMerkleTx where
  tx : CTransaction
  hashBlock : Nat
  vMerkleBranch : List Nat
  nIndex : Int
  deriving DecidableEq, Repr

/-- Serialization of `CBaseMerkleTx` in the order of its `SerializationOp`
(`src/auxpow.h`, lines 86–92): tx, hashBlock, vMerkleBranch, nIndex. -/
def serMerkleTx (m : CBaseMerkleTx) : List Nat :=
  serTx m.tx ++ serLE 32 m.hashBlock ++ serHashVec m.vMerkleBranch ++ serInt32 m.nIndex

/-- Decoder matching `serMerkleTx`. -/
def deMerkleTx (bs : List Nat) : Option (CBaseMerkleTx × List Nat) :=
  (deTx bs).bind (fun p =>
    (deLE 32 p.2).bind (fun q =>
      (deHashVec q.2).bind (fun r =>
        (deInt32 r.2).map (fun s =>
          (CBaseMerkleTx.mk p.1 q.1 r.1 s.1, s.2)))))

/-- The parent block header, modelled from the spec (§6): version, previous
hash, Merkle root, time, difficulty bits, nonce.  (`CPureBlockHeader` is
defined in `primitives/pureheader.h`, not part of the provided material.) -/
structure CPureBlockHeader where
  nVersion : Int
  hashPrevBlock : Nat
  hashMerkleRoot : Nat
  nTime : Nat
  nBits : Nat
  nNonce : Nat
  deriving DecidableEq, Repr

/-- Fixed-size serialization of the parent header, modelled from the spec
(§6): version, previous hash, Merkle root, time, bits, nonce. -/
def serHeader (h : CPureBlockHeader) : List Nat :=
  serInt32 h.nVersion ++ serLE 32 h.hashPrevBlock ++ serLE 32 h.hashMerkleRoot ++
    serLE 4 h.nTime ++ serLE 4 h.nBits ++ serLE 4 h.nNonce

/-- Decoder matching `serHeader`. -/
def deHeader (bs : List Nat) : Option (CPureBlockHeader × List Nat) :=
  (deInt32 bs).bind (fun p =>
    (deLE 32 p.2).bind (fun q =>
      (deLE 32 q.2).bind (fun r =>
        (deLE 4 r.2).bind (fun s =>
          (deLE 4 s.2).bind (fun u =>
            (deLE 4 u.2).map (fun w =>
              (CPureBlockHeader.mk p.1 q.1 r.1 s.1 u.1 w.1, w.2)))))))

/-- The fields of `CAuxPow` (`src/auxpow.h`, lines 102–195): the parent
block's coinbase proof, the chain Merkle branch, the chain path index, and
the parent block header. -/
structure CAuxPow where
  coinbaseTx : CBaseMerkleTx
  vChainMerkleBranch : List Nat
  nChainIndex : Int
  parentBlock : CPureBlockHeader
  deriving DecidableEq, Repr

/-- Serialization of `CAuxPow` in the order of its `SerializationOp`
(`src/auxpow.h`, lines 146–154): coinbaseTx, vChainMerkleBranch,
nChainIndex, parentBlock. -/
def serAuxPow (a : CAuxPow) : List Nat :=
  serMerkleTx a.coinbaseTx ++ serHashVec a.vChainMerkleBranch ++
    serInt32 a.nChainIndex ++ serHeader a.parentBlock

/-- Decoder matching `serAuxPow`. -/
def deAuxPow (bs : List Nat) : Option (CAuxPow × List Nat) :=
  (deMerkleTx bs).bind (fun p =>
    (deHashVec p.2).bind (fun q =>
      (deInt32 q.2).bind (fun r =>
        (deHeader r.2).map (fun s =>
          (CAuxPow.mk p.1 q.1 r.1 s.1, s.2)))))

/-- Well-formedness of a `CBaseMerkleTx` value as represented in C++:
hashes fit in 256 bits, the index fits in a signed 32-bit integer, and
sequence lengths fit in the CompactSize range. -/
def WfMerkleTx (m : CBaseMerkleTx) : Prop :=
  m.tx.scriptSig.length < 2 ^ 64 ∧
  m.hashBlock < 2 ^ 256 ∧
  (∀ x ∈ m.vMerkleBranch, x < 2 ^ 256) ∧
  m.vMerkleBranch.length < 2 ^ 64 ∧
  -(2 ^ 31) ≤ m.nIndex ∧ m.nIndex < 2 ^ 31

/-- Well-formedness of a parent header as represented in C++: the version is
a signed 32-bit integer, hashes fit in 256 bits, and time, bits and nonce
fit in 32 bits. -/
def WfHeader (h : CPureBlockHeader) : Prop :=
  -(2 ^ 31) ≤ h.nVersion ∧ h.nVersion < 2 ^ 31 ∧
  h.hashPrevBlock < 2 ^ 256 ∧ h.hashMerkleRoot < 2 ^ 256 ∧
  h.nTime < 2 ^ 32 ∧ h.nBits < 2 ^ 32 ∧ h.nNonce < 2 ^ 32

/-- Well-formedness of a `CAuxPow` value as represented in C++. -/
def WfAuxPow (a : CAuxPow) : Prop :=
  WfMerkleTx a.coinbaseTx ∧
  (∀ x ∈ a.vChainMerkleBranch, x < 2 ^ 256) ∧
  a.vChainMerkleBranch.length < 2 ^ 64 ∧
  -(2 ^ 31) ≤ a.nChainIndex ∧ a.nChainIndex < 2 ^ 31 ∧
  WfHeader a.parentBlock

instance (m : CBaseMerkleTx) : Decidable (WfMerkleTx m) := by
  unfold WfMerkleTx; infer_instance

instance (h : CPureBlockHeader) : Decidable (WfHeader h) := by
  unfold WfHeader; infer_instance

instance (a : CAuxPow) : Decidable (WfAuxPow a) := by
  unfold WfAuxPow; infer_instance

/-! ## The merge-mining marker and commitment extraction -/

/-- The merge-mining coinbase marker `pchMergedMiningHeader`
(`src/auxpow.h`, line 39): `0xfa 0xbe 'm' 'm'`. -/
def pchMergedMiningHeader : List Nat := [0xfa, 0xbe, 0x6d, 0x6d]

/-- Number of positions at which `pat` occurs as a contiguous run inside
`s`. -/
def countOcc (pat s : List Nat) : Nat :=
  ((List.range (s.length + 1)).filter (fun i => pat.isPrefixOf (s.drop i))).length

/-- Position of the first occurrence of `pat` inside `s`, if any. -/
def findMarker (pat s : List Nat) : Option Nat :=
  (List.range (s.length + 1)).find? (fun i => pat.isPrefixOf (s.drop i))

/-- The taxonomy of AuxPow validation failures (spec §7). -/
inductive AuxPowError where
  | MarkerMissing
  | MarkerDuplicated
  | Truncated
  | ChainIdLoopback
  | BranchTooLong
  | RootMismatch
  | SizeMismatch
  | IndexMismatch
  | CoinbaseLinkMismatch
  deriving DecidableEq, Repr

instance : DecidableEq (Except AuxPowError Unit) := fun a b =>
  match a, b with
  | .ok (), .ok () => isTrue rfl
  | .ok (), .error _ => isFalse (fun h => Except.noConfusion h)
  | .error _, .ok () => isFalse (fun h => Except.noConfusion h)
  | .error x, .error y =>
      if h : x = y then isTrue (by rw [h])
      else isFalse (fun hh => h (by injection hh))

/-- The commitment payload parsed out of the coinbase script (spec §3): a
32-byte declared root, a 4-byte declared tree size, a 4-byte nonce. -/
structure Commitment where
  root : Nat
  size : Nat
  nonce : Nat
  deriving DecidableEq, Repr

/-- Modelled from the spec (§4.3): parse the 40-byte commitment payload that
immediately follows the marker — a 32-byte root, a 4-byte little-endian
declared tree size, and a 4-byte little-endian nonce; fewer than 40 bytes
remaining is `Truncated`. -/
def extractAt (payload : List Nat) : Except AuxPowError Commitment :=
  match (deLE 32 payload).bind (fun p =>
      (deLE 4 p.2).bind (fun q =>
        (deLE 4 q.2).map (fun r => (p.1, q.1, r.1)))) with
  | none => .error .Truncated
  | some t => .ok ⟨t.1, t.2.1, t.2.2⟩

/-- Modelled from the spec (§4.3): the coinbase-commitment extractor
(implemented in `auxpow.cpp`, not part of the provided material).  Search
the script bytes for the merge-mining marker: zero occurrences is
`MarkerMissing`, more than one is `MarkerDuplicated`; with exactly one
occurrence, parse the 40-byte payload immediately following it. -/
def extract (script : List Nat) : Except AuxPowError Commitment :=
  if countOcc pchMergedMiningHeader script = 0 then .error .MarkerMissing
  else if 2 ≤ countOcc pchMergedMiningHeader script then .error .MarkerDuplicated
  else
    match findMarker pchMergedMiningHeader script with
    | none => .error .MarkerMissing
    | some i => extractAt (script.drop (i + pchMergedMiningHeader.length))

/-! ## Merkle branch recomputation and the expected-slot formula -/

/-- Modelled from the spec (§4.1): `CAuxPow::CheckMerkleBranch`
(declared at `src/auxpow.h` lines 126–128, implemented in `auxpow.cpp`,
not part of the provided material).  Iterate over the branch, combining to
the right when the current low bit of the index is 0 and to the left when
it is 1; the double-hash combining primitive is external and passed as a
parameter.  After exhausting the branch, return the accumulated leaf. -/
def CheckMerkleBranch (combine : Nat → Nat → Nat) :
    Nat → List Nat → Nat → Nat
  | leaf, [], _ => leaf
  | leaf, b :: rest, idx =>
      CheckMerkleBranch combine
        (if idx % 2 = 0 then combine leaf b else combine b leaf) rest (idx / 2)

/-- Modelled from the spec (§4.2): `CAuxPow::getExpectedIndex` (declared at
`src/auxpow.h` line 185 as `static int getExpectedIndex(uint32_t, int,
unsigned)`, implemented in `auxpow.cpp`, not part of the provided
material).  Two-round integer mixing: `r = nonce`;
`r = r * 1103515245 + 12345 (mod 2^32)`; `r = r + chainId`;
`r = r * 1103515245 + 12345 (mod 2^32)`; return `r mod 2^height`. -/
def getExpectedIndex (nNonce : Nat) (nChainId : Int) (h : Nat) : Int :=
  let r1 : Int := ((nNonce : Int) * 1103515245 + 12345) % (2 ^ 32)
  let r2 : Int := r1 + nChainId
  let r3 : Int := (r2 * 1103515245 + 12345) % (2 ^ 32)
  r3 % (2 ^ h)

/-! ## Consensus parameters and the validity check -/

/-- The slice of `Consensus::Params` that the AuxPow check consumes
(spec §6): the flag enabling strict loop-guard checking and the bound on
the chain-branch length.  (The chain id itself is passed to `check` as a
separate argument, as in the declaration at `src/auxpow.h` lines
165–166.) -/
structure ConsensusParams where
  strictChainId : Bool
  maxChainBranchLength : Nat
  deriving DecidableEq, Repr

/-- Modelled from the spec (§4.4, step 1): the parent header's own embedded
chain identifier, carried in the upper bits of the version field as is
standard for merged mining. -/
def getChainId (h : CPureBlockHeader) : Int := h.nVersion / (2 ^ 16)

/-- Modelled from the spec (§4.4): `CAuxPow::check` (declared at
`src/auxpow.h` lines 165–166, implemented in `auxpow.cpp`, not part of the
provided material), with the outcome as the spec's typed
`Result<(), AuxPowError>`.  The ordered checks, first failure winning:
loop guard, branch bound, chain-root recomputation, commitment extraction,
root, size and index agreement, and the coinbase link to the parent
header's Merkle root.  The transaction hash and hash-combining primitives
are external and passed as parameters. -/
def check (txHashF : CTransaction → Nat) (combine : Nat → Nat → Nat)
    (a : CAuxPow) (hashAuxBlock : Nat) (nChainId : Int)
    (params : ConsensusParams) : Except AuxPowError Unit :=
  if params.strictChainId = true ∧ getChainId a.parentBlock = nChainId then
    .error .ChainIdLoopback
  else if a.vChainMerkleBranch.length > params.maxChainBranchLength then
    .error .BranchTooLong
  else
    match extract a.coinbaseTx.tx.scriptSig with
    | .error e => .error e
    | .ok c =>
        if c.root ≠
            CheckMerkleBranch combine hashAuxBlock a.vChainMerkleBranch
              a.nChainIndex.toNat then
          .error .RootMismatch
        else if c.size ≠ 2 ^ a.vChainMerkleBranch.length then .error .SizeMismatch
        else if a.nChainIndex ≠
            getExpectedIndex c.nonce nChainId a.vChainMerkleBranch.length then
          .error .IndexMismatch
        else if CheckMerkleBranch combine (txHashF a.coinbaseTx.tx)
            a.coinbaseTx.vMerkleBranch a.coinbaseTx.nIndex.toNat ≠
            a.parentBlock.hashMerkleRoot then
          .error .CoinbaseLinkMismatch
        else .ok ()

/-- The interface actually declared in the header (`src/auxpow.h` lines
165–166): `bool check(...) const` — the boolean collapse of the typed
outcome, true exactly on success. -/
def checkBool (txHashF : CTransaction → Nat) (combine : Nat → Nat → Nat)
    (a : CAuxPow) (hashAuxBlock : Nat) (nChainId : Int)
    (params : ConsensusParams) : Bool :=
  match check txHashF combine a hashAuxBlock nChainId params with
  | .ok _ => true
  | .error _ => false

/-- `CAuxPow::getParentBlockHash` (`src/auxpow.h`, lines 171–175): returns
the hash of the embedded parent block header.  The header-hash primitive
(`CPureBlockHeader::GetHash`) is external and passed as a parameter. -/
def getParentBlockHash (headerHashF : CPureBlockHeader → Nat) (a : CAuxPow) : Nat :=
  headerHashF a.parentBlock

/-! ## The builder -/

/-- The synthetic coinbase script of the builder: marker, then the declared
root, tree size and nonce, little endian (spec §4.5 together with §4.3). -/
def mmScript (root size nonce : Nat) : List Nat :=
  pchMergedMiningHeader ++ serLE 32 root ++ serLE 4 size ++ serLE 4 nonce

/-- Modelled from the spec (§4.5): `CAuxPow::createAuxPow` (declared at
`src/auxpow.h` line 193, implemented in `auxpow.cpp`, not part of the
provided material).  Builds the minimal legal proof for a freshly minted
secondary-chain header: empty chain branch with index 0, a synthetic
coinbase script embedding marker, root = the header's hash, size 1 and
nonce 0, a one-leaf coinbase Merkle proof (empty branch, index 0), and a
parent header whose Merkle root equals the hash of that single synthetic
coinbase. -/
def createAuxPow (txHashF : CTransaction → Nat)
    (headerHashF : CPureBlockHeader → Nat) (header : CPureBlockHeader) : CAuxPow :=
  { coinbaseTx :=
      { tx := ⟨mmScript (headerHashF header) 1 0⟩
        hashBlock := 0
        vMerkleBranch := []
        nIndex := 0 }
    vChainMerkleBranch := []
    nChainIndex := 0
    parentBlock :=
      { nVersion := 0, hashPrevBlock := 0
        hashMerkleRoot := txHashF ⟨mmScript (headerHashF header) 1 0⟩
        nTime := 0, nBits := 0, nNonce := 0 } }

/-- The height-0 scenario of spec §8: empty chain branch, chain index 0,
commitment root `X`, declared size 1 and an arbitrary embedded nonce in
the synthetic coinbase script; the parent header's Merkle root commits to
the synthetic coinbase as its single leaf.  With nonce 0 this coincides
with the builder's output for a header hashing to `X`. -/
def height0AuxPow (txHashF : CTransaction → Nat) (X nonce : Nat) : CAuxPow :=
  { coinbaseTx :=
      { tx := ⟨mmScript X 1 nonce⟩
        hashBlock := 0
        vMerkleBranch := []
        nIndex := 0 }
    vChainMerkleBranch := []
    nChainIndex := 0
    parentBlock :=
      { nVersion := 0, hashPrevBlock := 0
        hashMerkleRoot := txHashF ⟨mmScript X 1 nonce⟩
        nTime := 0, nBits := 0, nNonce := 0 } }

/-! ## Constructors (from `src/auxpow.h`) and state-passing method forms -/

/-- `CBaseMerkleTx::Init` (`src/auxpow.h`, lines 73–77): sets `hashBlock`
to the all-zero hash and `nIndex` to the wallet sentinel -1. -/
def CBaseMerkleTx.init (m : CBaseMerkleTx) : CBaseMerkleTx :=
  { m with hashBlock := 0, nIndex := -1 }

/-- The `CBaseMerkleTx(CTransactionRef)` constructor (`src/auxpow.h`, lines
67–71): stores the transaction and calls `Init`; the branch vector is
default-constructed empty.  The pre-`Init` values of `hashBlock` and
`nIndex` are immaterial (the C++ members hold no meaningful value until
`Init` runs inside the constructor). -/
def CBaseMerkleTx.ofTx (t : CTransaction) : CBaseMerkleTx :=
  CBaseMerkleTx.init { tx := t, hashBlock := 0, vMerkleBranch := [], nIndex := 0 }

/-- The default `CBaseMerkleTx()` constructor (`src/auxpow.h`, lines
61–65): sets the transaction to a fresh empty one and calls `Init`. -/
def CBaseMerkleTx.mkDefault : CBaseMerkleTx := CBaseMerkleTx.ofTx ⟨[]⟩

/-- The explicit `CAuxPow(CTransactionRef)` constructor (`src/auxpow.h`,
lines 138–140): initializes `coinbaseTx` from the given transaction; the
chain branch is default-constructed empty.  C++ leaves `nChainIndex`
indeterminate and the parent header fields default-constructed; we pick
zeros — no claim depends on them. -/
def CAuxPow.ofTx (t : CTransaction) : CAuxPow :=
  { coinbaseTx := CBaseMerkleTx.ofTx t
    vChainMerkleBranch := []
    nChainIndex := 0
    parentBlock := ⟨0, 0, 0, 0, 0, 0⟩ }

/-- The defaulted `CAuxPow()` constructor (`src/auxpow.h`, line 142): all
members default-constructed, in particular `coinbaseTx` through the default
`CBaseMerkleTx()` constructor. -/
def CAuxPow.mkDefault : CAuxPow :=
  { coinbaseTx := CBaseMerkleTx.mkDefault
    vChainMerkleBranch := []
    nChainIndex := 0
    parentBlock := ⟨0, 0, 0, 0, 0, 0⟩ }

/-- State-passing form of the const method `check`: the pair of the result
and the object state after the call, the latter rebuilt field by field as
the method leaves them. -/
def checkSt (txHashF : CTransaction → Nat) (combine : Nat → Nat → Nat)
    (a : CAuxPow) (hashAuxBlock : Nat) (nChainId : Int)
    (params : ConsensusParams) : Except AuxPowError Unit × CAuxPow :=
  (check txHashF combine a hashAuxBlock nChainId params,
   { coinbaseTx := a.coinbaseTx
     vChainMerkleBranch := a.vChainMerkleBranch
     nChainIndex := a.nChainIndex
     parentBlock := a.parentBlock })

/-- State-passing form of the const method `getParentBlockHash`. -/
def getParentBlockHashSt (headerHashF : CPureBlockHeader → Nat)
    (a : CAuxPow) : Nat × CAuxPow :=
  (getParentBlockHash headerHashF a,
   { coinbaseTx := a.coinbaseTx
     vChainMerkleBranch := a.vChainMerkleBranch
     nChainIndex := a.nChainIndex
     parentBlock := a.parentBlock })

/-! ## The fork table (from `src/consensus/params.h`) -/

/-- The `Consensus::Fork` enumeration (`src/consensus/params.h`, lines
24–36). -/
inductive Fork where
  | POST_ICO
  deriving DecidableEq, Repr

/-- `MainNetConsensus::ForkInEffect` (`src/consensus/params.h`, lines
68–78): POST_ICO is in effect from height 1000000 on. -/
def MainNetConsensus.ForkInEffect : Fork → Nat → Bool
  | .POST_ICO, height => decide (height ≥ 1000000)

/-- `TestNetConsensus::ForkInEffect` (`src/consensus/params.h`, lines
86–96): POST_ICO is in effect from height 1000000 on. -/
def TestNetConsensus.ForkInEffect : Fork → Nat → Bool
  | .POST_ICO, height => decide (height ≥ 1000000)

/-- `RegTestConsensus::ForkInEffect` (`src/consensus/params.h`, lines
104–113): POST_ICO is in effect from height 500 on. -/
def RegTestConsensus.ForkInEffect : Fork → Nat → Bool
  | .POST_ICO, height => decide (height ≥ 500)

/-! ## Concrete stand-ins for the external hash primitives, used by the
closed witness and counterexample statements -/

/-- A concrete executable stand-in for the external transaction-hash
primitive. -/
def txHash0 : CTransaction → Nat :=
  fun t => t.scriptSig.foldl (fun acc b => (acc * 257 + b) % 2 ^ 256) 1

/-- A concrete executable stand-in for the external hash-combining
primitive. -/
def combine0 : Nat → Nat → Nat :=
  fun a b => (a * 3 + b * 5 + 7) % 2 ^ 256

/-- A concrete executable stand-in for the external header-hash
primitive. -/
def headerHash0 : CPureBlockHeader → Nat :=
  fun h => (h.hashMerkleRoot * 7 + h.nTime * 3 + h.nNonce + 11) % 2 ^ 256

/-- A concrete AuxPow whose parent header embeds chain id 1 (version
65536), used to trigger the loop guard in closed statements. -/
def loopAuxPow : CAuxPow :=
  { coinbaseTx := CBaseMerkleTx.mkDefault
    vChainMerkleBranch := []
    nChainIndex := 0
    parentBlock := ⟨65536, 0, 0, 0, 0, 0⟩ }

/-- A concrete AuxPow with a one-element chain branch, used to trigger the
branch bound in closed statements. -/
def longBranchAuxPow : CAuxPow :=
  { coinbaseTx := CBaseMerkleTx.mkDefault
    vChainMerkleBranch := [4]
    nChainIndex := 0
    parentBlock := ⟨0, 0, 0, 0, 0, 0⟩ }

/-- A concrete well-formed AuxPow value used by closed witness
statements. -/
def exAuxPow : CAuxPow :=
  { coinbaseTx :=
      { tx := ⟨[1, 2, 3]⟩, hashBlock := 42, vMerkleBranch := [7, 9], nIndex := 1 }
    vChainMerkleBranch := [5]
    nChainIndex := -3
    parentBlock := ⟨-2, 11, 13, 17, 19, 23⟩ }

/-! # Theorems -/

/-! ## Round-trip lemmas for the serialization primitives -/

theorem serLE_length (w n : Nat) : (serLE w n).length = w := by
  induction w generalizing n with
  | zero => rfl
  | succ w ih => simp [serLE, ih]

theorem deLE_serLE (w n : Nat) (rest : List Nat) :
    deLE w (serLE w n ++ rest) = some (n % 256 ^ w, rest) := by
  induction w generalizing n with
  | zero => simp [serLE, deLE, Nat.mod_one]
  | succ w ih =>
      rw [serLE, List.cons_append, deLE, ih, Option.map_some']
      have h256 : (256 : Nat) ^ (w + 1) = 256 * 256 ^ w := by ring
      rw [h256, Nat.mod_mul]

theorem deLE_serLE_of_lt (w n : Nat) (rest : List Nat) (h : n < 256 ^ w) :
    deLE w (serLE w n ++ rest) = some (n, rest) := by
  rw [deLE_serLE, Nat.mod_eq_of_lt h]

theorem deLE32_of_lt (n : Nat) (rest : List Nat) (h : n < 2 ^ 256) :
    deLE 32 (serLE 32 n ++ rest) = some (n, rest) := by
  apply deLE_serLE_of_lt
  norm_num at h ⊢
  omega

theorem deLE4_of_lt (n : Nat) (rest : List Nat) (h : n < 2 ^ 32) :
    deLE 4 (serLE 4 n ++ rest) = some (n, rest) := by
  apply deLE_serLE_of_lt
  norm_num at h ⊢
  omega

theorem deCompact_serCompact (n : Nat) (rest : List Nat) (h : n < 2 ^ 64) :
    deCompact (serCompact n ++ rest) = some (n, rest) := by
  unfold serCompact
  by_cases h1 : n < 253
  · rw [if_pos h1]
    simp [deCompact, h1]
  · rw [if_neg h1]
    by_cases h2 : n < 2 ^ 16
    · rw [if_pos h2, List.cons_append]
      have e : deCompact (253 :: (serLE 2 n ++ rest)) = deLE 2 (serLE 2 n ++ rest) := by
        simp [deCompact]
      rw [e, deLE_serLE_of_lt _ _ _ (by norm_num at h2 ⊢; omega)]
    · rw [if_neg h2]
      by_cases h3 : n < 2 ^ 32
      · rw [if_pos h3, List.cons_append]
        have e : deCompact (254 :: (serLE 4 n ++ rest)) = deLE 4 (serLE 4 n ++ rest) := by
          simp [deCompact]
        rw [e, deLE_serLE_of_lt _ _ _ (by norm_num at h3 ⊢; omega)]
      · rw [if_neg h3, List.cons_append]
        have e : deCompact (255 :: (serLE 8 n ++ rest)) = deLE 8 (serLE 8 n ++ rest) := by
          simp [deCompact]
        rw [e, deLE_serLE_of_lt _ _ _ (by norm_num at h ⊢; omega)]

theorem deInt32_serInt32 (i : Int) (rest : List Nat)
    (h1 : -(2 ^ 31) ≤ i) (h2 : i < 2 ^ 31) :
    deInt32 (serInt32 i ++ rest) = some (i, rest) := by
  unfold serInt32 deInt32
  have hlt : (i % (2 ^ 32)).toNat < 256 ^ 4 := by norm_num; omega
  rw [deLE_serLE_of_lt _ _ _ hlt, Option.map_some']
  by_cases hpos : 0 ≤ i
  · have hv : (i % (2 ^ 32)).toNat = i.toNat := by omega
    have hc : (i.toNat : Int) = i := Int.toNat_of_nonneg hpos
    have hb : i.toNat < 2 ^ 31 := by omega
    rw [hv, if_pos hb, hc]
  · have hb : ¬ ((i % (2 ^ 32)).toNat < 2 ^ 31) := by omega
    have hv : (((i % (2 ^ 32)).toNat : Int) - 2 ^ 32) = i := by omega
    rw [if_neg hb, hv]

theorem readBytes_append (xs rest : List Nat) :
    readBytes xs.length (xs ++ rest) = some (xs, rest) := by
  induction xs with
  | nil => rfl
  | cons b bs ih => simp [readBytes, ih]

theorem deHashes_append (v rest : List Nat) (hv : ∀ x ∈ v, x < 2 ^ 256) :
    deHashes v.length ((v.map (serLE 32)).flatten ++ rest) = some (v, rest) := by
  induction v with
  | nil => rfl
  | cons x xs ih =>
      have hx : x < 2 ^ 256 := hv x (List.mem_cons_self x xs)
      have hxs : ∀ y ∈ xs, y < 2 ^ 256 := fun y hy => hv y (List.mem_cons_of_mem x hy)
      simp only [List.map_cons, List.flatten_cons, List.length_cons, deHashes,
        List.append_assoc]
      rw [deLE32_of_lt _ _ hx]
      simp only [Option.some_bind]
      rw [ih hxs]
      rfl

theorem deHashVec_serHashVec (v rest : List Nat)
    (hv : ∀ x ∈ v, x < 2 ^ 256) (hlen : v.length < 2 ^ 64) :
    deHashVec (serHashVec v ++ rest) = some (v, rest) := by
  unfold serHashVec deHashVec
  rw [List.append_assoc, deCompact_serCompact _ _ hlen]
  simp only [Option.some_bind]
  exact deHashes_append v rest hv

theorem deTx_serTx (t : CTransaction) (rest : List Nat)
    (hlen : t.scriptSig.length < 2 ^ 64) :
    deTx (serTx t ++ rest) = some (t, rest) := by
  unfold serTx deTx
  rw [List.append_assoc, deCompact_serCompact _ _ hlen]
  simp only [Option.some_bind]
  rw [readBytes_append]
  rfl

theorem deMerkleTx_serMerkleTx (m : CBaseMerkleTx) (rest : List Nat)
    (hm : WfMerkleTx m) :
    deMerkleTx (serMerkleTx m ++ rest) = some (m, rest) := by
  obtain ⟨h1, h2, h3, h4, h5, h6⟩ := hm
  unfold serMerkleTx deMerkleTx
  rw [List.append_assoc, List.append_assoc, List.append_assoc,
    deTx_serTx _ _ h1]
  simp only [Option.some_bind]
  rw [deLE32_of_lt _ _ h2]
  simp only [Option.some_bind]
  rw [deHashVec_serHashVec _ _ h3 h4]
  simp only [Option.some_bind]
  rw [deInt32_serInt32 _ _ h5 h6]
  rfl

theorem deHeader_serHeader (h : CPureBlockHeader) (rest : List Nat)
    (hw : WfHeader h) :
    deHeader (serHeader h ++ rest) = some (h, rest) := by
  obtain ⟨h1, h2, h3, h4, h5, h6, h7⟩ := hw
  unfold serHeader deHeader
  rw [List.append_assoc, List.append_assoc, List.append_assoc, List.append_assoc,
    List.append_assoc, deInt32_serInt32 _ _ h1 h2]
  simp only [Option.some_bind]
  rw [deLE32_of_lt _ _ h3]
  simp only [Option.some_bind]
  rw [deLE32_of_lt _ _ h4]
  simp only [Option.some_bind]
  rw [deLE4_of_lt _ _ h5]
  simp only [Option.some_bind]
  rw [deLE4_of_lt _ _ h6]
  simp only [Option.some_bind]
  rw [deLE4_of_lt _ _ h7]
  rfl

theorem deAuxPow_serAuxPow (a : CAuxPow) (rest : List Nat)
    (ha : WfAuxPow a) :
    deAuxPow (serAuxPow a ++ rest) = some (a, rest) := by
  obtain ⟨h1, h2, h3, h4, h5, h6⟩ := ha
  unfold serAuxPow deAuxPow
  rw [List.append_assoc, List.append_assoc, List.append_assoc,
    deMerkleTx_serMerkleTx _ _ h1]
  simp only [Option.some_bind]
  rw [deHashVec_serHashVec _ _ h2 h3]
  simp only [Option.some_bind]
  rw [deInt32_serInt32 _ _ h4 h5]
  simp only [Option.some_bind]
  rw [deHeader_serHeader _ _ h6]
  rfl

/-! ## Extraction and validation lemmas -/

theorem findMarker_prefix_zero (pat tail : List Nat) :
    findMarker pat (pat ++ tail) = some 0 := by
  unfold findMarker
  rw [List.range_succ_eq_map]
  apply List.find?_cons_of_pos
  show pat.isPrefixOf ((pat ++ tail).drop 0) = true
  rw [List.drop_zero]
  exact List.isPrefixOf_iff_prefix.mpr (List.prefix_append pat tail)

theorem mmScript_assoc (root size nonce : Nat) :
    mmScript root size nonce =
      pchMergedMiningHeader ++ (serLE 32 root ++ (serLE 4 size ++ serLE 4 nonce)) := by
  unfold mmScript
  simp [List.append_assoc]

theorem extract_mmScript (root size nonce : Nat)
    (h1 : root < 2 ^ 256) (h2 : size < 2 ^ 32) (h3 : nonce < 2 ^ 32)
    (hm : countOcc pchMergedMiningHeader (mmScript root size nonce) = 1) :
    extract (mmScript root size nonce) = .ok ⟨root, size, nonce⟩ := by
  have hfind : findMarker pchMergedMiningHeader (mmScript root size nonce) = some 0 := by
    rw [mmScript_assoc]
    exact findMarker_prefix_zero _ _
  unfold extract
  rw [hm, hfind]
  rw [if_neg (by norm_num), if_neg (by norm_num)]
  have hdrop : (mmScript root size nonce).drop (0 + pchMergedMiningHeader.length) =
      serLE 32 root ++ (serLE 4 size ++ serLE 4 nonce) := by
    rw [mmScript_assoc, Nat.zero_add, List.drop_left]
  show extractAt ((mmScript root size nonce).drop (0 + pchMergedMiningHeader.length)) =
    .ok ⟨root, size, nonce⟩
  rw [hdrop]
  unfold extractAt
  rw [deLE32_of_lt _ _ h1]
  simp only [Option.some_bind]
  rw [deLE4_of_lt _ _ h2]
  simp only [Option.some_bind]
  have h4 : deLE 4 (serLE 4 nonce) = some (nonce, []) := by
    have := deLE4_of_lt nonce [] h3
    rwa [List.append_nil] at this
  rw [h4]
  rfl

theorem getExpectedIndex_height_zero (n : Nat) (c : Int) :
    getExpectedIndex n c 0 = 0 := by
  unfold getExpectedIndex
  simp [Int.emod_one]

theorem check_height0_ok (txHashF : CTransaction → Nat) (combine : Nat → Nat → Nat)
    (X nonce : Nat) (chainId : Int) (params : ConsensusParams)
    (hX : X < 2 ^ 256) (hnonce : nonce < 2 ^ 32)
    (hguard : params.strictChainId = true → chainId ≠ 0)
    (hm : countOcc pchMergedMiningHeader (mmScript X 1 nonce) = 1) :
    check txHashF combine (height0AuxPow txHashF X nonce) X chainId params = .ok () := by
  have hext : extract (mmScript X 1 nonce) = .ok ⟨X, 1, nonce⟩ :=
    extract_mmScript X 1 nonce hX (by norm_num) hnonce hm
  have hz : getChainId (height0AuxPow txHashF X nonce).parentBlock = 0 := by
    show ((0 : Int) / (2 ^ 16)) = 0
    norm_num
  have hc1 : ¬ (params.strictChainId = true ∧
      getChainId (height0AuxPow txHashF X nonce).parentBlock = chainId) := by
    rintro ⟨hs, he⟩
    exact hguard hs (he.symm.trans hz)
  have hc2 : ¬ ((height0AuxPow txHashF X nonce).vChainMerkleBranch.length >
      params.maxChainBranchLength) := by
    show ¬ (params.maxChainBranchLength < 0)
    exact Nat.not_lt_zero _
  unfold check
  rw [if_neg hc1, if_neg hc2]
  rw [show (height0AuxPow txHashF X nonce).coinbaseTx.tx.scriptSig =
        mmScript X 1 nonce from rfl]
  rw [hext]
  dsimp only [height0AuxPow, CheckMerkleBranch]
  rw [if_neg (show ¬ (X ≠ X) from fun hne => hne rfl)]
  rw [if_neg (show ¬ ((1 : Nat) ≠ 2 ^ ([] : List Nat).length) from by norm_num)]
  rw [List.length_nil, getExpectedIndex_height_zero]
  rw [if_neg (show ¬ ((0 : Int) ≠ 0) from fun hne => hne rfl)]
  rw [if_neg (show ¬ (txHashF ⟨mmScript X 1 nonce⟩ ≠ txHashF ⟨mmScript X 1 nonce⟩) from
        fun hne => hne rfl)]

/-! ## Claim theorems -/

/-- C1: serializing a `CAuxPow` writes, in this exact order, the coinbase
transaction, the 32-byte committed block hash, the length-prefixed
coinbase Merkle branch, the signed 32-bit coinbase path index, the
length-prefixed chain Merkle branch, the signed 32-bit chain path index
and the fixed-size parent header; and for every well-formed `CAuxPow`,
deserializing its serialization yields an equal value (byte-exact round
trip), leaving trailing bytes untouched. -/
theorem auxpow_wire_layout_and_round_trip :
    (∀ a : CAuxPow, serAuxPow a =
      serTx a.coinbaseTx.tx ++ serLE 32 a.coinbaseTx.hashBlock ++
        serHashVec a.coinbaseTx.vMerkleBranch ++ serInt32 a.coinbaseTx.nIndex ++
        serHashVec a.vChainMerkleBranch ++ serInt32 a.nChainIndex ++
        serHeader a.parentBlock) ∧
    (∀ (a : CAuxPow) (rest : List Nat), WfAuxPow a →
      deAuxPow (serAuxPow a ++ rest) = some (a, rest)) :=
  ⟨fun _ => rfl, fun a rest h => deAuxPow_serAuxPow a rest h⟩

/-- Witness for C1: the round trip evaluated at a concrete AuxPow value. -/
theorem auxpow_wire_layout_and_round_trip_witness :
    WfAuxPow exAuxPow ∧ deAuxPow (serAuxPow exAuxPow ++ []) = some (exAuxPow, []) :=
  ⟨by decide, auxpow_wire_layout_and_round_trip.2 exAuxPow [] (by decide)⟩

/-- C2: for every secondary-chain header `H` and every chain id that does
not trigger the loop guard, the AuxPow built by `createAuxPow` passes
`check` against `H`'s hash — for arbitrary external hash primitives,
provided the committed hash's byte encoding does not spuriously contain a
second copy of the merge-mining marker (with the chain's hash primitive
that happens only with negligible probability). -/
theorem createAuxPow_check_ok (txHashF : CTransaction → Nat)
    (headerHashF : CPureBlockHeader → Nat) (combine : Nat → Nat → Nat)
    (H : CPureBlockHeader) (chainId : Int) (params : ConsensusParams)
    (hX : headerHashF H < 2 ^ 256)
    (hguard : params.strictChainId = true → chainId ≠ 0)
    (hm : countOcc pchMergedMiningHeader (mmScript (headerHashF H) 1 0) = 1) :
    check txHashF combine (createAuxPow txHashF headerHashF H)
      (headerHashF H) chainId params = .ok () := by
  have e : createAuxPow txHashF headerHashF H =
      height0AuxPow txHashF (headerHashF H) 0 := rfl
  rw [e]
  exact check_height0_ok txHashF combine (headerHashF H) 0 chainId params
    hX (by norm_num) hguard hm

/-- Witness for C2 at concrete hash primitives and a concrete header. -/
theorem createAuxPow_check_ok_witness :
    check txHash0 combine0 (createAuxPow txHash0 headerHash0 ⟨0, 0, 0, 5, 0, 0⟩)
      (headerHash0 ⟨0, 0, 0, 5, 0, 0⟩) 1 ⟨true, 30⟩ = .ok () :=
  createAuxPow_check_ok txHash0 headerHash0 combine0 ⟨0, 0, 0, 5, 0, 0⟩ 1 ⟨true, 30⟩
    (by decide) (by decide) (by decide)

/-- C3 counterexample: the interface declared in the header is
`bool check(...)`; two inputs that fail for different reasons — a chain-id
loopback and an over-long chain branch — are both reported to the caller
as the same undifferentiated `false`, even though the typed outcomes
differ.  The claim that every failure reaches the caller as a distinct
error kind is false for the declared interface. -/
theorem check_bool_undifferentiated :
    checkBool txHash0 combine0 loopAuxPow 0 1 ⟨true, 0⟩ = false ∧
    checkBool txHash0 combine0 longBranchAuxPow 0 1 ⟨true, 0⟩ = false ∧
    check txHash0 combine0 loopAuxPow 0 1 ⟨true, 0⟩ = .error .ChainIdLoopback ∧
    check txHash0 combine0 longBranchAuxPow 0 1 ⟨true, 0⟩ = .error .BranchTooLong ∧
    check txHash0 combine0 loopAuxPow 0 1 ⟨true, 0⟩ ≠
      check txHash0 combine0 longBranchAuxPow 0 1 ⟨true, 0⟩ := by
  decide

/-- C3 amended: the failure analysis is internally exhaustive and typed —
the spec's distinct error kinds — but the declared interface collapses it
to a boolean: `check` returns true exactly when the typed outcome is
success, and false exactly when some typed failure kind occurred, with
identical inputs always yielding the identical outcome. -/
theorem check_bool_iff_typed (txHashF : CTransaction → Nat)
    (combine : Nat → Nat → Nat) (a : CAuxPow) (x : Nat) (c : Int)
    (p : ConsensusParams) :
    (checkBool txHashF combine a x c p = true ↔
      check txHashF combine a x c p = .ok ()) ∧
    (checkBool txHashF combine a x c p = false ↔
      ∃ e, check txHashF combine a x c p = .error e) := by
  unfold checkBool
  cases h : check txHashF combine a x c p with
  | ok u =>
      cases u
      constructor
      · simp
      · simp
  | error e =>
      constructor
      · simp
      · simp

/-- C4: `getExpectedIndex` equals the spec's two-round mixing function:
`r = nonce`; `r = r * 1103515245 + 12345 (mod 2^32)`; `r = r + chainId`;
`r = r * 1103515245 + 12345 (mod 2^32)`; result `r mod 2^height`. -/
theorem getExpectedIndex_formula (nNonce : Nat) (nChainId : Int) (h : Nat) :
    getExpectedIndex nNonce nChainId h =
      ((((((nNonce : Int) * 1103515245 + 12345) % 2 ^ 32 + nChainId) *
          1103515245 + 12345) % 2 ^ 32) % 2 ^ h) := rfl

/-- C5: for every height in [0, 31] and every nonce and chain id, the
expected index lies in [0, 2^height); in particular it is never negative
despite the signed return type. -/
theorem getExpectedIndex_range (n : Nat) (c : Int) (h : Nat) (hh : h ≤ 31) :
    0 ≤ getExpectedIndex n c h ∧ getExpectedIndex n c h < 2 ^ h := by
  have hp : (0 : Int) < 2 ^ h := pow_pos (by norm_num) h
  unfold getExpectedIndex
  exact ⟨Int.emod_nonneg _ hp.ne', Int.emod_lt_of_pos _ hp⟩

/-- Witness for C5 at concrete inputs. -/
theorem getExpectedIndex_range_witness :
    0 ≤ getExpectedIndex 3 5 4 ∧ getExpectedIndex 3 5 4 < 2 ^ 4 :=
  getExpectedIndex_range 3 5 4 (by decide)

/-- C6 counterexample: in the height-0 scenario (root 12, size 1) with the
embedded nonce changed to 9 ≠ 0 and the chain index left at 0, `check`
does not return `IndexMismatch` — it succeeds, because at height 0 the
expected index is 0 for every nonce. -/
theorem height0_nonce_change_counterexample :
    check txHash0 combine0 (height0AuxPow txHash0 12 9) 12 1 ⟨true, 30⟩ = .ok () ∧
    check txHash0 combine0 (height0AuxPow txHash0 12 9) 12 1 ⟨true, 30⟩ ≠
      .error .IndexMismatch := by
  decide

/-- C6 amended: in the height-0 scenario, changing the embedded nonce to
any value while leaving the chain index 0 does not cause `IndexMismatch`:
`check` still succeeds, because `expectedIndex(nonce, chainId, 0) = 0`
holds for every nonce, so the index comparison at height 0 cannot fail. -/
theorem height0_nonce_change_still_ok (txHashF : CTransaction → Nat)
    (combine : Nat → Nat → Nat) (X nonce : Nat) (chainId : Int)
    (params : ConsensusParams)
    (hX : X < 2 ^ 256) (hnonce : nonce < 2 ^ 32)
    (hguard : params.strictChainId = true → chainId ≠ 0)
    (hm : countOcc pchMergedMiningHeader (mmScript X 1 nonce) = 1) :
    check txHashF combine (height0AuxPow txHashF X nonce) X chainId params = .ok () :=
  check_height0_ok txHashF combine X nonce chainId params hX hnonce hguard hm

/-- Witness for the amended C6 at concrete values with nonce 9. -/
theorem height0_nonce_change_still_ok_witness :
    check txHash0 combine0 (height0AuxPow txHash0 12 9) 12 1 ⟨true, 30⟩ = .ok () :=
  height0_nonce_change_still_ok txHash0 combine0 12 9 1 ⟨true, 30⟩
    (by decide) (by decide) (by decide) (by decide)

/-- C7: recomputing a Merkle root from an empty branch returns the leaf
itself unchanged, for every combining primitive, leaf hash and index; in
particular with auxBlockHash `X`, empty chain branch and chain index 0 the
recomputed chain root equals `X`. -/
theorem checkMerkleBranch_nil (combine : Nat → Nat → Nat) (leaf idx : Nat) :
    CheckMerkleBranch combine leaf [] idx = leaf := rfl

/-- C8: an AuxPow is never mutated: the post-state of the const methods
`check` (any arguments) and `getParentBlockHash` equals the input AuxPow
in every field, and `getParentBlockHash` returns exactly the hash of the
embedded parent block header. -/
theorem auxpow_methods_do_not_mutate (txHashF : CTransaction → Nat)
    (combine : Nat → Nat → Nat) (headerHashF : CPureBlockHeader → Nat)
    (a : CAuxPow) (x : Nat) (c : Int) (p : ConsensusParams) :
    (checkSt txHashF combine a x c p).2 = a ∧
    (getParentBlockHashSt headerHashF a).2 = a ∧
    getParentBlockHash headerHashF a = headerHashF a.parentBlock :=
  ⟨rfl, rfl, rfl⟩

/-- C9: a default-constructed `CBaseMerkleTx` — and the coinbase proof
inside a freshly constructed `CAuxPow`, through either constructor — has
`hashBlock` equal to the all-zero hash and path index `nIndex` equal to
the wallet-only unconfirmed sentinel -1. -/
theorem merkleTx_constructor_sentinel :
    (∀ t : CTransaction,
      (CBaseMerkleTx.ofTx t).hashBlock = 0 ∧ (CBaseMerkleTx.ofTx t).nIndex = -1) ∧
    CBaseMerkleTx.mkDefault.hashBlock = 0 ∧ CBaseMerkleTx.mkDefault.nIndex = -1 ∧
    (∀ t : CTransaction,
      (CAuxPow.ofTx t).coinbaseTx.hashBlock = 0 ∧
        (CAuxPow.ofTx t).coinbaseTx.nIndex = -1) ∧
    CAuxPow.mkDefault.coinbaseTx.hashBlock = 0 ∧
    CAuxPow.mkDefault.coinbaseTx.nIndex = -1 :=
  ⟨fun _ => ⟨rfl, rfl⟩, rfl, rfl, fun _ => ⟨rfl, rfl⟩, rfl, rfl⟩

/-- C10: for each of the three network consensus classes, `ForkInEffect`
for POST_ICO is monotone in the height: once the fork is in effect at
some height, it is in effect at every greater height. -/
theorem forkInEffect_monotone (f : Fork) (h k : Nat) (hle : h ≤ k) :
    (MainNetConsensus.ForkInEffect f h = true →
      MainNetConsensus.ForkInEffect f k = true) ∧
    (TestNetConsensus.ForkInEffect f h = true →
      TestNetConsensus.ForkInEffect f k = true) ∧
    (RegTestConsensus.ForkInEffect f h = true →
      RegTestConsensus.ForkInEffect f k = true) := by
  cases f
  refine ⟨?_, ?_, ?_⟩ <;>
    · simp only [MainNetConsensus.ForkInEffect, TestNetConsensus.ForkInEffect,
        RegTestConsensus.ForkInEffect, decide_eq_true_eq]
      omega

/-- Witness for C10: monotonicity applied at concrete heights. -/
theorem forkInEffect_monotone_witness :
    RegTestConsensus.ForkInEffect .POST_ICO 501 = true :=
  (forkInEffect_monotone .POST_ICO 500 501 (by decide)).2.2 (by decide)

end Xaya
